import Mathlib

/-!
Shallow embedding of the api-version Axum middleware (src/lib.rs):
a layer that rewrites a request path with a version segment chosen from
the x-api-version header or defaulted to the highest configured version.
Strings of the source are modelled as lists of characters so that every
operation is structurally recursive and computable by the kernel.
-/

namespace ApiVersion

/-- Character-list model of a Rust string slice. -/
abbrev Str := List Char

/-- Decimal rendering of a number, as in the format macro of the source. -/
def natChars (n : Nat) : Str :=
  Nat.toDigits 10 n

/-- Rust `str::split('?')`: the chunks between question marks; an input
without a question mark yields one chunk (possibly empty). -/
def splitOnQMark : Str → List Str
  | [] => [[]]
  | c :: rest =>
    if c = '?' then [] :: splitOnQMark rest
    else
      match splitOnQMark rest with
      | [] => [[c]]
      | p :: ps => (c :: p) :: ps

/-- An HTTP request as the middleware sees it: the URI's path-and-query
string (`request.uri().path_and_query()`, e.g. "/test?x=1") and the value
of the x-api-version header, when present. -/
structure Request where
  paq : Str
  xApiVersion : Option Str
deriving DecidableEq, Repr

/-- The path component of a path-and-query string: everything before the
first question mark (`Uri::path`). -/
def uriPath (paq : Str) : Str :=
  (splitOnQMark paq).headD []

/-- The query component of a path-and-query string: everything after the
first question mark, `none` when there is no question mark (`Uri::query`). -/
def uriQuery (paq : Str) : Option Str :=
  match splitOnQMark paq with
  | [] => none
  | [_] => none
  | _ :: rest => some (List.intercalate "?".data rest)

/-- `XApiVersion::decode`: the header value must match the regex
`^v(\d{1,4})$` (a lowercase v followed by one to four decimal digits), and
the digits are parsed as a number. An absent header or a mismatch yields
`none`. (A non-ASCII digit matches the regex but fails the `u16` parse in
the source, so the net semantics is ASCII digits only.) -/
def decodeXApiVersion (value : Option Str) : Option Nat :=
  match value with
  | none => none
  | some ('v' :: digits) =>
    if 1 ≤ digits.length ∧ digits.length ≤ 4 ∧ digits.all Char.isDigit then
      some (digits.foldl (fun n c => n * 10 + (c.toNat - 48)) 0)
    else none
  | some _ => none

/-- The scope check of `ApiVersionService::call` (lib.rs lines 183-186):
does the request path start with "/v{version}" for any configured version? -/
def pathStartsWithVersion (versions : List Nat) (path : Str) : Bool :=
  versions.any (fun v => List.isPrefixOf ("/v".data ++ natChars v) path)

/-- Version resolution (lib.rs lines 209-213): the decoded header value,
or the last configured version when the header is absent or malformed.
(The inner default 0 stands for the `expect` on a non-empty version set.) -/
def resolveVersion (versions : List Nat) (hdr : Option Str) : Nat :=
  (decodeXApiVersion hdr).getD (versions.getLast?.getD 0)

/-- URI reconstruction (lib.rs lines 224-232): split the path-and-query on
the question marks, then rebuild "/v{version}{path}?{query}" when a second
chunk exists, "/v{version}{path}" for a non-root path without query, and
"/v{version}" for the root path without query. -/
def rewritePaq (version : Nat) (paq : Str) : Str :=
  let parts := splitOnQMark paq
  let path := parts.headD []
  match parts[1]? with
  | some query => "/v".data ++ natChars version ++ path ++ "?".data ++ query
  | none =>
    if path ≠ "/".data then "/v".data ++ natChars version ++ path
    else "/v".data ++ natChars version

/-- Outcome of one middleware invocation: a short-circuit response, or the
request handed to the inner service (possibly rewritten). -/
inductive Outcome where
  | badRequest (msg : Str)
  | internalServerError
  | notFound (msg : Str)
  | forward (request : Request)
deriving DecidableEq, Repr

/-- `ApiVersionService::call` (lib.rs lines 176-242). The filter's answer is
passed in as `filterResult`; the scope check runs before the filter, then
version resolution, the membership check and the rewrite. -/
def call (versions : List Nat) (filterResult : Except Unit Bool)
    (request : Request) : Outcome :=
  if pathStartsWithVersion versions (uriPath request.paq) then
    Outcome.badRequest "path must not start with version prefix like '/v0'".data
  else
    match filterResult with
    | Except.error _ => Outcome.internalServerError
    | Except.ok false => Outcome.forward request
    | Except.ok true =>
      let version := resolveVersion versions request.xApiVersion
      if ¬ versions.contains version then
        Outcome.notFound ("unknown version '".data ++ natChars version ++ "'".data)
      else
        Outcome.forward { request with paq := rewritePaq version request.paq }

/-- Construction errors for `ApiVersions`, one per violated invariant
(the source's three assert messages in `ApiVersions::new`). -/
inductive ApiVersionsError where
  | Empty
  | NotIncreasing
  | OutOfRange
deriving DecidableEq, Repr

/-- `is_monotonically_increasing` (lib.rs lines 294-308): every adjacent
pair is strictly ascending. -/
def is_monotonically_increasing : List Nat → Bool
  | [] => true
  | [_] => true
  | a :: b :: rest => a < b && is_monotonically_increasing (b :: rest)

/-- `ApiVersions::new` (lib.rs lines 110-122): the checks in source order
(empty, not strictly increasing, last element at least 10000), as a
fallible constructor. -/
def ApiVersions.new (versions : List Nat) : Except ApiVersionsError (List Nat) :=
  if versions.isEmpty then Except.error ApiVersionsError.Empty
  else if ¬ is_monotonically_increasing versions then
    Except.error ApiVersionsError.NotIncreasing
  else if ¬ (versions.getLast?.getD 0 < 10000) then
    Except.error ApiVersionsError.OutOfRange
  else Except.ok versions

/-! Helper lemmas about the split on question marks and digit rendering. -/

theorem splitOnQMark_ne_nil (s : Str) : splitOnQMark s ≠ [] := by
  cases s with
  | nil => simp [splitOnQMark]
  | cons c rest =>
    simp only [splitOnQMark]
    by_cases h : c = '?'
    · simp [h]
    · simp only [if_neg h]
      cases splitOnQMark rest <;> simp

theorem not_qmark_mem_of_mem_splitOnQMark (s : Str) :
    ∀ p ∈ splitOnQMark s, '?' ∉ p := by
  induction s with
  | nil =>
    intro p hp
    simp [splitOnQMark] at hp
    simp [hp]
  | cons c rest ih =>
    intro p hp
    simp only [splitOnQMark] at hp
    by_cases h : c = '?'
    · rw [if_pos h] at hp
      rcases List.mem_cons.mp hp with hp | hp
      · simp [hp]
      · exact ih p hp
    · rw [if_neg h] at hp
      rcases hq : splitOnQMark rest with _ | ⟨q, qs⟩
      · exact absurd hq (splitOnQMark_ne_nil rest)
      · rw [hq] at hp
        rcases List.mem_cons.mp hp with hp | hp
        · subst hp
          intro hmem
          rcases List.mem_cons.mp hmem with he | he
          · exact h he.symm
          · exact ih q (by rw [hq]; exact List.mem_cons_self q qs) he
        · exact ih p (by rw [hq]; exact List.mem_cons_of_mem q hp)

theorem splitOnQMark_append_no_qmark (a : Str) (s : Str) (h : '?' ∉ a) :
    splitOnQMark (a ++ s) =
      (a ++ (splitOnQMark s).headD []) :: (splitOnQMark s).tail := by
  induction a with
  | nil =>
    rcases hq : splitOnQMark s with _ | ⟨p, ps⟩
    · exact absurd hq (splitOnQMark_ne_nil s)
    · simp [hq]
  | cons c a ih =>
    have hc : ¬ c = '?' := by
      intro e
      exact h (by simp [e])
    have ha : '?' ∉ a := by
      intro m
      exact h (by simp [m])
    have hrec := ih ha
    simp only [List.cons_append, splitOnQMark, if_neg hc, List.append_eq, hrec]

theorem splitOnQMark_no_qmark (s : Str) (h : '?' ∉ s) : splitOnQMark s = [s] := by
  have := splitOnQMark_append_no_qmark s [] h
  simpa [splitOnQMark] using this

theorem splitOnQMark_append_qmark (a : Str) (s : Str) (h : '?' ∉ a) :
    splitOnQMark (a ++ '?' :: s) = a :: splitOnQMark s := by
  rw [splitOnQMark_append_no_qmark a ('?' :: s) h]
  simp [splitOnQMark]

theorem isDigit_of_mem_toDigitsCore :
    ∀ (fuel n : Nat) (ds : List Char), (∀ c ∈ ds, c.isDigit = true) →
      ∀ c ∈ Nat.toDigitsCore 10 fuel n ds, c.isDigit = true := by
  intro fuel
  induction fuel with
  | zero =>
    intro n ds h c hc
    exact h c hc
  | succ fuel ih =>
    intro n ds h c hc
    have hd : (Nat.digitChar (n % 10)).isDigit = true := by
      have hm : n % 10 < 10 := Nat.mod_lt _ (by norm_num)
      generalize n % 10 = m at hm
      interval_cases m <;> decide
    have hds : ∀ x ∈ Nat.digitChar (n % 10) :: ds, x.isDigit = true := by
      intro x hx
      rcases List.mem_cons.mp hx with hx | hx
      · rw [hx]; exact hd
      · exact h x hx
    rw [Nat.toDigitsCore] at hc
    by_cases hz : n / 10 = 0
    · rw [if_pos hz] at hc
      exact hds c hc
    · rw [if_neg hz] at hc
      exact ih (n / 10) _ hds c hc

theorem isDigit_of_mem_natChars (n : Nat) : ∀ c ∈ natChars n, c.isDigit = true :=
  isDigit_of_mem_toDigitsCore (n + 1) n [] (by simp)

theorem qmark_not_mem_natChars (n : Nat) : '?' ∉ natChars n := by
  intro h
  have := isDigit_of_mem_natChars n '?' h
  exact absurd this (by decide)

theorem mono_iff_chain (l : List Nat) :
    is_monotonically_increasing l = true ↔ List.Chain' (fun a b => a < b) l := by
  induction l with
  | nil => simp [is_monotonically_increasing]
  | cons a t ih =>
    cases t with
    | nil => simp [is_monotonically_increasing]
    | cons b t' =>
      rw [is_monotonically_increasing, List.chain'_cons, Bool.and_eq_true,
        decide_eq_true_iff, ih]

theorem le_getLast_of_chain_lt :
    ∀ (l : List Nat), List.Chain' (fun a b => a < b) l → ∀ (hne : l ≠ []),
      ∀ v ∈ l, v ≤ l.getLast hne := by
  intro l
  induction l with
  | nil =>
    intro _ hne
    exact absurd rfl hne
  | cons a t ih =>
    intro h hne v hv
    cases t with
    | nil =>
      rcases List.mem_singleton.mp hv with rfl
      simp [List.getLast]
    | cons b t' =>
      have h1 : a < b := (List.chain'_cons.mp h).1
      have h2 : List.Chain' (fun a b => a < b) (b :: t') := (List.chain'_cons.mp h).2
      have hbt : (b :: t' : List Nat) ≠ [] := by simp
      rw [List.getLast_cons hbt]
      rcases List.mem_cons.mp hv with rfl | hv
      · have hb := ih h2 hbt b (List.mem_cons_self b t')
        exact le_of_lt (lt_of_lt_of_le h1 hb)
      · exact ih h2 hbt v hv

/-- C3: in filter mode, a request whose path begins with "/v{n}" for some n
in the version set is answered 400 Bad Request with the message that the
path must not carry a version prefix, whatever the filter would answer and
without reaching the inner service. -/
theorem c3_existing_prefix_rejected (versions : List Nat) (req : Request)
    (fr : Except Unit Bool)
    (h : ∃ n ∈ versions, ("/v".data ++ natChars n) <+: uriPath req.paq) :
    call versions fr req =
      Outcome.badRequest "path must not start with version prefix like '/v0'".data := by
  have hb : pathStartsWithVersion versions (uriPath req.paq) = true := by
    rcases h with ⟨n, hn, hpre⟩
    unfold pathStartsWithVersion
    rw [List.any_eq_true]
    exact ⟨n, hn, List.isPrefixOf_iff_prefix.mpr hpre⟩
  simp [call, hb]

/-- C3 witness: a request to /v0/test against versions 0 and 1 is answered
400 even when the filter would pass it. -/
theorem c3_existing_prefix_rejected_witness :
    call [0, 1] (Except.ok true) ⟨"/v0/test".data, none⟩ =
      Outcome.badRequest "path must not start with version prefix like '/v0'".data :=
  c3_existing_prefix_rejected [0, 1] ⟨"/v0/test".data, none⟩ (Except.ok true)
    ⟨0, by decide, List.isPrefixOf_iff_prefix.mp (by decide)⟩

/-- C4: a request whose header decodes to a version outside the version set
is answered 404 Not Found naming the unknown version; the inner service is
not reached. -/
theorem c4_unknown_version_404 (versions : List Nat) (req : Request) (v : Nat)
    (hp : pathStartsWithVersion versions (uriPath req.paq) = false)
    (hd : decodeXApiVersion req.xApiVersion = some v)
    (hm : v ∉ versions) :
    call versions (Except.ok true) req =
      Outcome.notFound ("unknown version '".data ++ natChars v ++ "'".data) := by
  have hres : resolveVersion versions req.xApiVersion = v := by
    simp [resolveVersion, hd]
  simp [call, hp, hres, hm]

/-- C4 witness: header v2 against versions 0 and 1 yields the 404 naming
version 2. -/
theorem c4_unknown_version_404_witness :
    call [0, 1] (Except.ok true) ⟨"/test".data, some "v2".data⟩ =
      Outcome.notFound ("unknown version '".data ++ natChars 2 ++ "'".data) :=
  c4_unknown_version_404 [0, 1] ⟨"/test".data, some "v2".data⟩ 2
    (by decide) (by decide) (by decide)

/-- C5: the header decoder as implemented accepts values with leading zeros:
"v01" decodes to 1 and "v007" to 7, although the source doc comment and the
spec require such values to fail; the remaining spec examples behave as
documented. -/
theorem c5_leading_zero_accepted :
    decodeXApiVersion (some "v01".data) = some 1 ∧
    decodeXApiVersion (some "v007".data) = some 7 ∧
    decodeXApiVersion (some "v0".data) = some 0 ∧
    decodeXApiVersion (some "v1".data) = some 1 ∧
    decodeXApiVersion (some "v99".data) = some 99 ∧
    decodeXApiVersion (some "v9999".data) = some 9999 ∧
    decodeXApiVersion (some "v10000".data) = none ∧
    decodeXApiVersion (some "vx".data) = none ∧
    decodeXApiVersion (some "".data) = none ∧
    decodeXApiVersion none = none := by decide

/-- C8: when the filter fails, the middleware answers 500 Internal Server
Error; the error is not propagated and the inner service is not reached. -/
theorem c8_filter_error_500 (versions : List Nat) (req : Request) (e : Unit)
    (hp : pathStartsWithVersion versions (uriPath req.paq) = false) :
    call versions (Except.error e) req = Outcome.internalServerError := by
  simp [call, hp]

/-- C8 witness: a failing filter on /test against versions 0 and 1 yields
the 500 response. -/
theorem c8_filter_error_500_witness :
    call [0, 1] (Except.error ()) ⟨"/test".data, none⟩ =
      Outcome.internalServerError :=
  c8_filter_error_500 [0, 1] ⟨"/test".data, none⟩ () (by decide)

/-- C10: the 400 scope check is a raw string-prefix test, not a path-segment
test: every request whose path is the characters "/v" followed by the
decimal rendering of a set member and then an arbitrary remainder — with no
segment boundary required, as in "/v1abc" or exactly "/v1" — is answered
400, whatever the filter would answer. -/
theorem c10_raw_prefix_not_segment (versions : List Nat) (n : Nat)
    (req : Request) (fr : Except Unit Bool) (s : Str)
    (hn : n ∈ versions)
    (hpath : uriPath req.paq = "/v".data ++ natChars n ++ s) :
    call versions fr req =
      Outcome.badRequest "path must not start with version prefix like '/v0'".data := by
  have hb : pathStartsWithVersion versions (uriPath req.paq) = true := by
    unfold pathStartsWithVersion
    rw [List.any_eq_true]
    refine ⟨n, hn, List.isPrefixOf_iff_prefix.mpr ⟨s, ?_⟩⟩
    rw [hpath, List.append_assoc]
  simp [call, hb]

/-- C10 witness: a request to /v1abc against versions 0 and 1 — the raw
prefix /v1 with the boundary-free remainder abc — is answered 400. -/
theorem c10_raw_prefix_not_segment_witness :
    call [0, 1] (Except.ok true) ⟨"/v1abc".data, none⟩ =
      Outcome.badRequest "path must not start with version prefix like '/v0'".data :=
  c10_raw_prefix_not_segment [0, 1] 1 ⟨"/v1abc".data, none⟩ (Except.ok true)
    "abc".data (by decide) (by decide)

/-- C1: for a request that reaches version resolution (no version prefix in
the path, filter passed), an absent or malformed header resolves to the last
configured version and a well-formed header resolves to its decoded value;
the middleware then answers using exactly that resolved version. -/
theorem c1_resolution (versions : List Nat) (hne : versions ≠ [])
    (req : Request)
    (hp : pathStartsWithVersion versions (uriPath req.paq) = false) :
    (decodeXApiVersion req.xApiVersion = none →
      resolveVersion versions req.xApiVersion = versions.getLast hne) ∧
    (∀ v, decodeXApiVersion req.xApiVersion = some v →
      resolveVersion versions req.xApiVersion = v) ∧
    call versions (Except.ok true) req =
      (if versions.contains (resolveVersion versions req.xApiVersion) then
        Outcome.forward { req with
          paq := rewritePaq (resolveVersion versions req.xApiVersion) req.paq }
      else
        Outcome.notFound ("unknown version '".data ++
          natChars (resolveVersion versions req.xApiVersion) ++ "'".data)) := by
  refine ⟨?_, ?_, ?_⟩
  · intro h
    simp [resolveVersion, h, List.getLast?_eq_getLast_of_ne_nil hne]
  · intro v h
    simp [resolveVersion, h]
  · by_cases hc : versions.contains (resolveVersion versions req.xApiVersion) = true
    · simp [call, hp, hc]
    · rw [Bool.not_eq_true] at hc
      simp [call, hp, hc]

/-- C1 witness: with versions 0 and 1, no header resolves to 1 and header
v0 resolves to 0. -/
theorem c1_resolution_witness :
    resolveVersion [0, 1] none = 1 ∧
    resolveVersion [0, 1] (some "v0".data) = 0 := by
  constructor
  · exact ((c1_resolution [0, 1] (by decide) ⟨"/test".data, none⟩
      (by decide)).1 rfl).trans (by decide)
  · exact (c1_resolution [0, 1] (by decide) ⟨"/test".data, some "v0".data⟩
      (by decide)).2.1 0 (by decide)

/-- C2 counterexample: a query string containing a question mark is not
re-appended unchanged: the request /test?a?b (query "a?b") is rewritten to
/v0/test?a, whose query is only "a". -/
theorem c2_query_truncated_counterexample :
    call [0] (Except.ok true) ⟨"/test?a?b".data, none⟩ =
      Outcome.forward ⟨"/v0/test?a".data, none⟩ ∧
    uriQuery "/test?a?b".data = some "a?b".data ∧
    uriQuery "/v0/test?a".data = some "a".data := by decide

/-- C2 amended: for a request rewritten with resolved version n whose
original path is not exactly "/", the new path is "/v{n}" prepended to the
original path, and the new query is the second question-mark chunk of the
original path-and-query: a query without a further question mark is
re-appended unchanged, anything after a second question mark is dropped. -/
theorem c2_rewrite_path_and_query (n : Nat) (paq : Str)
    (hroot : uriPath paq ≠ "/".data) :
    uriPath (rewritePaq n paq) = "/v".data ++ natChars n ++ uriPath paq ∧
    uriQuery (rewritePaq n paq) = (splitOnQMark paq)[1]? ∧
    (∀ path q, '?' ∉ path → '?' ∉ q → paq = path ++ '?' :: q →
      uriQuery (rewritePaq n paq) = some q) := by
  rcases hsp : splitOnQMark paq with _ | ⟨path, rest⟩
  · exact absurd hsp (splitOnQMark_ne_nil paq)
  have hpath : uriPath paq = path := by simp [uriPath, hsp]
  have hpnoq : '?' ∉ path :=
    not_qmark_mem_of_mem_splitOnQMark paq path
      (by rw [hsp]; exact List.mem_cons_self _ _)
  have hprefnoq : '?' ∉ ("/v".data ++ natChars n ++ path) := by
    intro hm
    have hsplit3 : ('?' ∈ "/v".data) ∨ '?' ∈ natChars n ∨ '?' ∈ path := by
      simpa [List.mem_append, or_assoc] using hm
    rcases hsplit3 with h1 | h1 | h1
    · exact absurd h1 (by decide)
    · exact qmark_not_mem_natChars n h1
    · exact hpnoq h1
  have hne' : path ≠ "/".data := hpath ▸ hroot
  cases rest with
  | nil =>
    have hrw : rewritePaq n paq = "/v".data ++ natChars n ++ path := by
      unfold rewritePaq
      rw [hsp]
      simp only [List.headD_cons, List.getElem?_cons_succ, List.getElem?_nil]
      rw [if_pos hne']
    refine ⟨?_, ?_, ?_⟩
    · rw [hrw]
      unfold uriPath
      rw [splitOnQMark_no_qmark _ hprefnoq, hsp]
      simp
    · rw [hrw]
      unfold uriQuery
      rw [splitOnQMark_no_qmark _ hprefnoq]
      simp
    · intro path' q hp' hq' heq
      rw [heq, splitOnQMark_append_qmark path' q hp',
        splitOnQMark_no_qmark q hq'] at hsp
      simp at hsp
  | cons q1 rest' =>
    have hq1noq : '?' ∉ q1 :=
      not_qmark_mem_of_mem_splitOnQMark paq q1
        (by rw [hsp]; exact List.mem_cons_of_mem _ (List.mem_cons_self _ _))
    have hrw : rewritePaq n paq = ("/v".data ++ natChars n ++ path) ++ '?' :: q1 := by
      unfold rewritePaq
      rw [hsp]
      simp only [List.headD_cons, List.getElem?_cons_succ, List.getElem?_cons_zero]
      simp
    have hsplit : splitOnQMark (rewritePaq n paq) =
        ("/v".data ++ natChars n ++ path) :: [q1] := by
      rw [hrw, splitOnQMark_append_qmark _ _ hprefnoq,
        splitOnQMark_no_qmark q1 hq1noq]
    have huq : uriQuery (rewritePaq n paq) = some q1 := by
      unfold uriQuery
      rw [hsplit]
      simp [List.intercalate]
    refine ⟨?_, ?_, ?_⟩
    · unfold uriPath
      rw [hsplit, hsp]
      simp
    · rw [huq]
      simp
    · intro path' q hp' hq' heq
      have h2 : splitOnQMark paq = path' :: [q] := by
        rw [heq, splitOnQMark_append_qmark path' _ hp',
          splitOnQMark_no_qmark q hq']
      rw [hsp] at h2
      have h4 : q1 = q := by
        injection h2 with h3 h2'
        injection h2' with h4 h5
      rw [huq, h4]

/-- C2 witness: /test?x=1 rewritten with version 0 has path /v0/test and the
query x=1 preserved. -/
theorem c2_rewrite_path_and_query_witness :
    uriPath (rewritePaq 0 "/test?x=1".data) =
      "/v".data ++ natChars 0 ++ uriPath "/test?x=1".data ∧
    uriQuery (rewritePaq 0 "/test?x=1".data) = some "x=1".data := by
  have h := c2_rewrite_path_and_query 0 "/test?x=1".data (by decide)
  exact ⟨h.1, h.2.2 "/test".data "x=1".data (by decide) (by decide) (by decide)⟩

/-- C7 counterexample: a root-path request that carries a query string is
rewritten with a trailing slash: /?x=1 becomes /v0/?x=1, whose path /v0/ is
not /v0. -/
theorem c7_root_with_query_counterexample :
    call [0, 1] (Except.ok true) ⟨"/?x=1".data, some "v0".data⟩ =
      Outcome.forward ⟨"/v0/?x=1".data, some "v0".data⟩ ∧
    uriPath "/?x=1".data = "/".data ∧
    uriPath "/v0/?x=1".data = "/v0/".data ∧
    uriPath (rewritePaq 0 "/?x=1".data) ≠ "/v".data ++ natChars 0 := by decide

/-- C7 amended: a rewritten request whose whole path-and-query is exactly
"/" (root path, no query string) results in the path "/v{n}" with no
trailing slash, n the resolved version. -/
theorem c7_root_no_query (versions : List Nat) (req : Request)
    (hp : pathStartsWithVersion versions (uriPath req.paq) = false)
    (hv : versions.contains (resolveVersion versions req.xApiVersion) = true)
    (hroot : req.paq = "/".data) :
    call versions (Except.ok true) req =
      Outcome.forward { req with
        paq := "/v".data ++ natChars (resolveVersion versions req.xApiVersion) } := by
  have hrw : rewritePaq (resolveVersion versions req.xApiVersion) "/".data =
      "/v".data ++ natChars (resolveVersion versions req.xApiVersion) := rfl
  have hv' : resolveVersion versions req.xApiVersion ∈ versions :=
    List.elem_iff.mp hv
  rw [hroot] at hp
  simp [call, hroot, hp, hv', hrw]

/-- C7 witness: a request to / with no header against versions 0 and 1 is
rewritten to the path /v1. -/
theorem c7_root_no_query_witness :
    call [0, 1] (Except.ok true) ⟨"/".data, none⟩ =
      Outcome.forward ⟨"/v1".data, none⟩ := by
  have h := c7_root_no_query [0, 1] ⟨"/".data, none⟩ (by decide) (by decide) rfl
  rw [h]
  decide

/-- C9: for a version set accepted by the constructor, the default resolved
version (the set's last element) is a member of the set, and a request
whose header is absent or malformed is never answered 404, whatever the
path and the filter answer. -/
theorem c9_default_version_no_404 (versions : List Nat)
    (h : (ApiVersions.new versions).isOk = true) :
    versions.getLast?.getD 0 ∈ versions ∧
    ∀ (req : Request) (fr : Except Unit Bool) (msg : Str),
      decodeXApiVersion req.xApiVersion = none →
      call versions fr req ≠ Outcome.notFound msg := by
  have hne : versions ≠ [] := by
    intro e
    rw [e] at h
    exact absurd h (by decide)
  have hmem : versions.getLast?.getD 0 ∈ versions := by
    rw [List.getLast?_eq_getLast_of_ne_nil hne]
    simp only [Option.getD_some]
    exact List.getLast_mem hne
  refine ⟨hmem, ?_⟩
  intro req fr msg hd
  have hres : resolveVersion versions req.xApiVersion = versions.getLast?.getD 0 := by
    simp [resolveVersion, hd]
  have hmem' : resolveVersion versions req.xApiVersion ∈ versions := by
    rw [hres]
    exact hmem
  by_cases hpre : pathStartsWithVersion versions (uriPath req.paq) = true
  · simp [call, hpre]
  · rw [Bool.not_eq_true] at hpre
    rcases fr with e | b
    · simp [call, hpre]
    · cases b
      · simp [call, hpre]
      · simp [call, hpre, hmem']

/-- C9 witness: with versions 0 and 1 the default version 1 is a member and
a headerless request to /test is not answered with the 404 naming it. -/
theorem c9_default_version_no_404_witness :
    [0, 1].getLast?.getD 0 ∈ [0, 1] ∧
    call [0, 1] (Except.ok true) ⟨"/test".data, none⟩ ≠
      Outcome.notFound ("unknown version '".data ++ natChars 1 ++ "'".data) := by
  have h := c9_default_version_no_404 [0, 1] (by decide)
  exact ⟨h.1, h.2 ⟨"/test".data, none⟩ (Except.ok true) _ rfl⟩

/-- C6: construction of the version set succeeds exactly on non-empty,
strictly increasing sequences whose elements are below 10000; otherwise it
fails with Empty for zero elements, NotIncreasing for a non-ascending
adjacent pair, and OutOfRange for a too-large maximum (checked in that
order). -/
theorem c6_versions_construction (versions : List Nat) :
    ((ApiVersions.new versions).isOk = true ↔
      versions ≠ [] ∧ List.Chain' (fun a b => a < b) versions ∧
        ∀ v ∈ versions, v < 10000) ∧
    (versions = [] →
      ApiVersions.new versions = Except.error ApiVersionsError.Empty) ∧
    (versions ≠ [] → ¬ List.Chain' (fun a b => a < b) versions →
      ApiVersions.new versions = Except.error ApiVersionsError.NotIncreasing) ∧
    (versions ≠ [] → List.Chain' (fun a b => a < b) versions →
      (∃ v ∈ versions, 10000 ≤ v) →
      ApiVersions.new versions = Except.error ApiVersionsError.OutOfRange) := by
  by_cases h1 : versions = []
  · subst h1
    refine ⟨?_, fun _ => rfl, fun h _ => absurd rfl h, fun h _ _ => absurd rfl h⟩
    constructor
    · intro h
      exact absurd h (by decide)
    · rintro ⟨h, -, -⟩
      exact absurd rfl h
  · obtain ⟨a, t, rfl⟩ := List.exists_cons_of_ne_nil h1
    have hE : ¬ (a :: t).isEmpty = true := by simp
    have hnil : (a :: t : List Nat) ≠ [] := by simp
    by_cases h2 : is_monotonically_increasing (a :: t) = true
    · have hch : List.Chain' (fun a b => a < b) (a :: t) := (mono_iff_chain _).mp h2
      have hgl : (a :: t).getLast?.getD 0 = (a :: t).getLast hnil := by
        rw [List.getLast?_eq_getLast_of_ne_nil hnil]
        rfl
      by_cases h3 : (a :: t).getLast?.getD 0 < 10000
      · have hall : ∀ v ∈ (a :: t), v < 10000 := by
          intro v hv
          have hle := le_getLast_of_chain_lt (a :: t) hch hnil v hv
          rw [hgl] at h3
          exact lt_of_le_of_lt hle h3
        have hok : ApiVersions.new (a :: t) = Except.ok (a :: t) := by
          unfold ApiVersions.new
          rw [if_neg hE, if_neg (not_not_intro h2), if_neg (not_not_intro h3)]
        refine ⟨?_, fun he => absurd he hnil, fun _ hnc => absurd hch hnc, ?_⟩
        · constructor
          · intro _
            exact ⟨hnil, hch, hall⟩
          · intro _
            rw [hok]
            rfl
        · rintro - - ⟨v, hv, hge⟩
          exact absurd (hall v hv) (not_lt.mpr hge)
      · have herr : ApiVersions.new (a :: t) =
            Except.error ApiVersionsError.OutOfRange := by
          unfold ApiVersions.new
          rw [if_neg hE, if_neg (not_not_intro h2), if_pos h3]
        refine ⟨?_, fun he => absurd he hnil, fun _ hnc => absurd hch hnc,
          fun _ _ _ => herr⟩
        constructor
        · intro hisOk
          rw [herr] at hisOk
          exact absurd hisOk (by decide)
        · rintro ⟨-, -, hall⟩
          have := hall ((a :: t).getLast hnil) (List.getLast_mem hnil)
          rw [hgl] at h3
          exact absurd this h3
    · have hnch : ¬ List.Chain' (fun a b => a < b) (a :: t) := fun hc =>
        h2 ((mono_iff_chain _).mpr hc)
      have herr : ApiVersions.new (a :: t) =
          Except.error ApiVersionsError.NotIncreasing := by
        unfold ApiVersions.new
        rw [if_neg hE, if_pos h2]
      refine ⟨?_, fun he => absurd he hnil, fun _ _ => herr,
        fun _ hch _ => absurd hch hnch⟩
      constructor
      · intro hisOk
        rw [herr] at hisOk
        exact absurd hisOk (by decide)
      · rintro ⟨-, hch, -⟩
        exact absurd hch hnch

/-- C6 witness: the empty sequence, the non-increasing pair 1 0, the pair
0 10000 and the valid pair 0 1 each produce the documented result. -/
theorem c6_versions_construction_witness :
    ApiVersions.new [] = Except.error ApiVersionsError.Empty ∧
    ApiVersions.new [1, 0] = Except.error ApiVersionsError.NotIncreasing ∧
    ApiVersions.new [0, 10000] = Except.error ApiVersionsError.OutOfRange ∧
    (ApiVersions.new [0, 1]).isOk = true := by
  refine ⟨(c6_versions_construction []).2.1 rfl,
    (c6_versions_construction [1, 0]).2.2.1 (by decide)
      (by norm_num [List.chain'_cons]),
    (c6_versions_construction [0, 10000]).2.2.2 (by decide)
      (by norm_num [List.chain'_cons]) (by decide),
    (c6_versions_construction [0, 1]).1.mpr
      ⟨by decide, by norm_num [List.chain'_cons], by decide⟩⟩

end ApiVersion
